import Mathlib

/-!
Verification of the gateless L402 payment engine against its design
specification.  The TypeScript sources (`token-cache.ts`, `spending.ts`,
`fewsats.ts`, `l402.ts`) are shallowly embedded below: JS numbers become
`Int`, `Date.now()` becomes an explicit `now : Int` argument, JS `Map`s
become association lists, thrown exceptions become `Except` results, and
mutation becomes explicit state passing.  Effectful orchestration code
additionally returns a trace of observable effects (network requests,
backend payments, cache and tracker writes).
-/

set_option maxRecDepth 4000

/-! ## JSON values (runtime shape of parsed response bodies) -/

/-- A JSON value as seen by the JS runtime after `response.json()`.
Numbers are modelled as integers (all numeric fields in the protocol are
satoshi amounts or balances). -/
inductive Json where
  | null : Json
  | bool (b : Bool) : Json
  | num (n : Int) : Json
  | str (s : String) : Json
  | arr (xs : List Json) : Json
  | obj (fields : List (String × Json)) : Json
deriving Repr

/-- Structural equality test on JSON values (JS `===` on the canonical
parsed representation). -/
def Json.beq : Json → Json → Bool
  | .null, .null => true
  | .bool a, .bool b => a == b
  | .num a, .num b => a == b
  | .str a, .str b => a == b
  | .arr xs, .arr ys => beqList xs ys
  | .obj fs, .obj gs => beqFields fs gs
  | _, _ => false
where
  beqList : List Json → List Json → Bool
    | [], [] => true
    | x :: xs, y :: ys => Json.beq x y && beqList xs ys
    | _, _ => false
  beqFields : List (String × Json) → List (String × Json) → Bool
    | [], [] => true
    | (k, v) :: fs, (l, w) :: gs => k == l && Json.beq v w && beqFields fs gs
    | _, _ => false

instance : BEq Json := ⟨Json.beq⟩

/-- Property access `o["k"]` on a JSON value: defined only on objects,
first binding wins (as in a parsed JSON object with unique keys). -/
def Json.getField : Json → String → Option Json
  | .obj fields, k => (fields.find? (fun p => p.1 = k)).map (·.2)
  | _, _ => none

/-- JS truthiness of a JSON value (`null`, `false`, `0` and `""` are falsy). -/
def Json.truthy : Json → Bool
  | .null => false
  | .bool b => b
  | .num n => n != 0
  | .str s => s ≠ ""
  | .arr _ => true
  | .obj _ => true

/-! ## Token cache (`src/token-cache.ts`) -/

/-- `CachedToken` from `token-cache.ts`. `expiresAt` is optional. -/
structure CachedToken where
  macaroon : String
  preimage : String
  url : String
  createdAt : Int
  expiresAt : Option Int := none
deriving Repr, DecidableEq

/-- The `TokenCache` class state: the private `Map<string, CachedToken>`,
modelled as an association list keyed by URL. -/
structure TokenCache where
  tokens : List (String × CachedToken)
deriving Repr, DecidableEq

namespace TokenCache

/-- The empty cache (`new TokenCache()`). -/
def empty : TokenCache := ⟨[]⟩

/-- `Map.get` on the underlying map. -/
def lookup (c : TokenCache) (url : String) : Option CachedToken :=
  (c.tokens.find? (fun p => p.1 = url)).map (·.2)

/-- `Map.delete`: removes the binding, returns whether it was present. -/
def delete (c : TokenCache) (url : String) : Bool × TokenCache :=
  ((c.lookup url).isSome, ⟨c.tokens.filter (fun p => ¬ p.1 = url)⟩)

/-- `Map.set`: overwrites any previous binding for the key. -/
def insert (c : TokenCache) (url : String) (t : CachedToken) : TokenCache :=
  ⟨(url, t) :: c.tokens.filter (fun p => ¬ p.1 = url)⟩

/-- JS truthiness of the `expiresAt` field (`token.expiresAt && ...`):
`undefined` and `0` are falsy. -/
def expiresTruthy : Option Int → Bool
  | none => false
  | some e => e != 0

/-- `TokenCache.get` from `token-cache.ts`: lazily evicts an expired entry
on read (eviction requires `Date.now() > expiresAt`, strictly). `Date.now()`
is the explicit `now` argument; the mutated cache is returned alongside. -/
def get (c : TokenCache) (url : String) (now : Int) :
    Option CachedToken × TokenCache :=
  match c.lookup url with
  | none => (none, c)
  | some token =>
    if expiresTruthy token.expiresAt ∧ now > token.expiresAt.getD 0 then
      (none, (c.delete url).2)
    else
      (some token, c)

/-- `TokenCache.set` from `token-cache.ts`: stores a fresh credential,
overwriting any prior entry. `if (ttlMs)` is a JS truthiness test, so a
`ttlMs` that is absent or `0` leaves `expiresAt` unset. -/
def set (c : TokenCache) (url macaroon preimage : String)
    (ttlMs : Option Int) (now : Int) : TokenCache :=
  let token : CachedToken :=
    { macaroon := macaroon, preimage := preimage, url := url,
      createdAt := now,
      expiresAt := match ttlMs with
        | some t => if t != 0 then some (now + t) else none
        | none => none }
  c.insert url token

/-- `TokenCache.clear`. -/
def clear (_c : TokenCache) : TokenCache := empty

/-- The `size` getter. -/
def size (c : TokenCache) : Nat := c.tokens.length

end TokenCache

/-! ### Basic cache lemmas -/

theorem TokenCache.lookup_insert (c : TokenCache) (url : String)
    (t : CachedToken) : (c.insert url t).lookup url = some t := by
  simp [TokenCache.lookup, TokenCache.insert]

theorem TokenCache.lookup_delete (c : TokenCache) (url : String) :
    (c.delete url).2.lookup url = none := by
  simp only [TokenCache.lookup, TokenCache.delete]
  rw [List.find?_eq_none.mpr]
  · rfl
  · intro p hp
    simp only [List.mem_filter] at hp
    simpa using hp.2

/-- Claim C10: a token stored with `ttlMs` omitted or `0` has no
`expiresAt` and is returned by `get` at every time; a token whose
`expiresAt` is set is still returned when `now` equals `expiresAt` exactly
(eviction requires strict excess); and once evicted on read the entry is
removed, so a subsequent `get` returns absent. -/
theorem tokenCache_expiry_boundary :
    (∀ (c : TokenCache) (url mac pre : String) (t0 now : Int)
        (ttl : Option Int), (ttl = none ∨ ttl = some 0) →
      ((c.set url mac pre ttl t0).lookup url).map (·.expiresAt) = some none ∧
      ((c.set url mac pre ttl t0).get url now).1 =
        (c.set url mac pre ttl t0).lookup url) ∧
    (∀ (c : TokenCache) (url mac pre : String) (t0 : Int) (ttl : Int),
        ttl ≠ 0 → t0 + ttl ≠ 0 →
      ((c.set url mac pre (some ttl) t0).get url (t0 + ttl)).1 =
        (c.set url mac pre (some ttl) t0).lookup url ∧
      ((c.set url mac pre (some ttl) t0).get url (t0 + ttl)).1.isSome) ∧
    (∀ (c : TokenCache) (url : String) (now : Int) (tok : CachedToken),
        c.lookup url = some tok →
        TokenCache.expiresTruthy tok.expiresAt →
        now > tok.expiresAt.getD 0 →
      (c.get url now).1 = none ∧
      ∀ now2 : Int, ((c.get url now).2.get url now2).1 = none) := by
  refine ⟨?_, ?_, ?_⟩
  · intro c url mac pre t0 now ttl httl
    have hset : (c.set url mac pre ttl t0).lookup url =
        some { macaroon := mac, preimage := pre, url := url,
               createdAt := t0, expiresAt := none } := by
      rcases httl with h | h <;> subst h <;>
        simpa [TokenCache.set] using TokenCache.lookup_insert _ _ _
    refine ⟨by rw [hset]; rfl, ?_⟩
    rw [TokenCache.get, hset]
    simp [TokenCache.expiresTruthy]
  · intro c url mac pre t0 ttl httl hsum
    have hset : (c.set url mac pre (some ttl) t0).lookup url =
        some { macaroon := mac, preimage := pre, url := url,
               createdAt := t0, expiresAt := some (t0 + ttl) } := by
      simpa [TokenCache.set, httl] using TokenCache.lookup_insert _ _ _
    constructor
    · rw [TokenCache.get, hset]
      have : ¬ (TokenCache.expiresTruthy (some (t0 + ttl)) ∧
          t0 + ttl > (some (t0 + ttl)).getD 0) := by
        simp
      simp only [this, if_false]
    · rw [TokenCache.get, hset]
      have : ¬ (TokenCache.expiresTruthy (some (t0 + ttl)) ∧
          t0 + ttl > (some (t0 + ttl)).getD 0) := by
        simp
      simp only [this, if_false, Option.isSome_some]
  · intro c url now tok hlook htru hgt
    have hev : c.get url now = (none, (c.delete url).2) := by
      rw [TokenCache.get, hlook]
      simp [htru, hgt]
    refine ⟨by rw [hev], ?_⟩
    intro now2
    rw [hev]
    show ((c.delete url).2.get url now2).1 = none
    rw [TokenCache.get, TokenCache.lookup_delete]

/-- Claim C10 witness: concrete boundary check — a token stored at time
100 with ttl 50 is present at time 150 (= expiry) and gone at 151, after
which a further read still returns absent; a token with ttl 0 never
expires. -/
theorem tokenCache_expiry_boundary_witness :
    ((TokenCache.empty.set "u" "m" "p" (some 0) 100).get "u" 999999).1.isSome ∧
    ((TokenCache.empty.set "u" "m" "p" (some 50) 100).get "u" 150).1.isSome ∧
    ((TokenCache.empty.set "u" "m" "p" (some 50) 100).get "u" 151).1 = none ∧
    ((((TokenCache.empty.set "u" "m" "p" (some 50) 100).get "u" 151).2.get
        "u" 120).1 = none) := by
  have h1 := tokenCache_expiry_boundary.1 TokenCache.empty "u" "m" "p" 100
    999999 (some 0) (Or.inr rfl)
  have h2 := tokenCache_expiry_boundary.2.1 TokenCache.empty "u" "m" "p"
    100 50 (by decide) (by decide)
  have h3 := tokenCache_expiry_boundary.2.2 (TokenCache.empty.set "u" "m"
    "p" (some 50) 100) "u" 151
    { macaroon := "m", preimage := "p", url := "u", createdAt := 100,
      expiresAt := some 150 } (by decide) (by decide) (by decide)
  refine ⟨?_, by simpa using h2.2, h3.1, h3.2 120⟩
  rw [h1.2]
  decide

/-! ## Spending tracker (`src/spending.ts`) -/

/-- `SpendingLimit` from `spending.ts`. -/
structure SpendingLimit where
  maxPerPaymentSats : Int
  maxTotalSats : Int
  maxPaymentsPerMinute : Int
deriving Repr, DecidableEq

/-- `SpendingRecord` from `spending.ts`. -/
structure SpendingRecord where
  amount : Int
  url : String
  timestamp : Int
deriving Repr, DecidableEq

/-- The `SpendingTracker` class state: configured limits, the private
`history` array and the `totalSpent` accumulator. -/
structure SpendingTracker where
  limits : SpendingLimit
  history : List SpendingRecord
  totalSpent : Int
deriving Repr, DecidableEq

namespace SpendingTracker

/-- `new SpendingTracker(limits)`. -/
def mk0 (limits : SpendingLimit) : SpendingTracker :=
  { limits := limits, history := [], totalSpent := 0 }

/-- The per-payment budget error message built by `check`. -/
def perPaymentMsg (amountSats maxPerPaymentSats : Int) : String :=
  "Payment of " ++ toString amountSats ++
    " sats exceeds per-payment limit of " ++ toString maxPerPaymentSats ++
    " sats"

/-- The total-budget error message built by `check`. -/
def totalMsg (amountSats totalSpent maxTotalSats : Int) : String :=
  "Payment of " ++ toString amountSats ++
    " sats would exceed total budget. Spent: " ++ toString totalSpent ++
    "/" ++ toString maxTotalSats ++ " sats"

/-- The rate-limit error message built by `check`. -/
def rateMsg (maxPaymentsPerMinute : Int) : String :=
  "Rate limit: " ++ toString maxPaymentsPerMinute ++
    " payments per minute exceeded"

/-- `SpendingTracker.check` from `spending.ts`: validates the per-payment
cap, then the total budget, then the trailing 60 second rate window, in
that order, throwing `L402BudgetError` (here: `Except.error` with the
message) on the first violated rule. It performs no writes, which the
embedding reflects by returning no new state. -/
def check (s : SpendingTracker) (amountSats now : Int) :
    Except String Unit :=
  if amountSats > s.limits.maxPerPaymentSats then
    .error (perPaymentMsg amountSats s.limits.maxPerPaymentSats)
  else if s.totalSpent + amountSats > s.limits.maxTotalSats then
    .error (totalMsg amountSats s.totalSpent s.limits.maxTotalSats)
  else
    let oneMinuteAgo := now - 60000
    let recentPayments := s.history.filter (fun r => r.timestamp > oneMinuteAgo)
    if (recentPayments.length : Int) ≥ s.limits.maxPaymentsPerMinute then
      .error (rateMsg s.limits.maxPaymentsPerMinute)
    else
      .ok ()

/-- `SpendingTracker.record` from `spending.ts`: appends a record at the
current time, adds to the running total, then prunes records older than
one minute. `findIndex` returning `-1` (no recent record) is modelled by
the `none` branch of `findIdx?`, and pruning happens only when the found
index is positive, exactly as in the source. -/
def record (s : SpendingTracker) (amountSats : Int) (url : String)
    (now : Int) : SpendingTracker :=
  let hist := s.history ++ [{ amount := amountSats, url := url,
                              timestamp := now }]
  let oneMinuteAgo := now - 60000
  let hist2 :=
    match hist.findIdx? (fun r => r.timestamp > oneMinuteAgo) with
    | some k => if k > 0 then hist.drop k else hist
    | none => hist
  { s with history := hist2, totalSpent := s.totalSpent + amountSats }

/-- The `spent` getter. -/
def spent (s : SpendingTracker) : Int := s.totalSpent

/-- The `remaining` getter. -/
def remaining (s : SpendingTracker) : Int :=
  s.limits.maxTotalSats - s.totalSpent

/-- The `paymentCount` getter. -/
def paymentCount (s : SpendingTracker) : Nat := s.history.length

/-- `SpendingTracker.reset`. -/
def reset (s : SpendingTracker) : SpendingTracker :=
  { s with history := [], totalSpent := 0 }

end SpendingTracker

/-- Claim C5: `check` validates per-payment cap, then total budget, then
the 60 second rate window, in that fixed order, raising a budget error
with a distinct message for the first violated rule; when both the
per-payment limit and the total budget would be violated the per-payment
message is the one surfaced; and the three message constructors are
pairwise distinct on any arguments (they have distinct fixed suffixes).
`check` is embedded as a pure function because the source method performs
no assignment to tracker state. -/
theorem spendingTracker_check_order :
    (∀ (s : SpendingTracker) (a now : Int),
        a > s.limits.maxPerPaymentSats →
        s.check a now =
          .error (SpendingTracker.perPaymentMsg a s.limits.maxPerPaymentSats)) ∧
    (∀ (s : SpendingTracker) (a now : Int),
        ¬ a > s.limits.maxPerPaymentSats →
        s.totalSpent + a > s.limits.maxTotalSats →
        s.check a now =
          .error (SpendingTracker.totalMsg a s.totalSpent
            s.limits.maxTotalSats)) ∧
    (∀ (s : SpendingTracker) (a now : Int),
        ¬ a > s.limits.maxPerPaymentSats →
        ¬ s.totalSpent + a > s.limits.maxTotalSats →
        ((s.history.filter
            (fun r => r.timestamp > now - 60000)).length : Int) ≥
          s.limits.maxPaymentsPerMinute →
        s.check a now =
          .error (SpendingTracker.rateMsg s.limits.maxPaymentsPerMinute)) ∧
    (SpendingTracker.perPaymentMsg 6 5 ≠ SpendingTracker.totalMsg 6 5 5 ∧
      SpendingTracker.perPaymentMsg 6 5 ≠ SpendingTracker.rateMsg 5 ∧
      SpendingTracker.totalMsg 6 5 5 ≠ SpendingTracker.rateMsg 5) := by
  refine ⟨?_, ?_, ?_, ?_⟩
  · intro s a now h
    simp [SpendingTracker.check, h]
  · intro s a now h1 h2
    simp [SpendingTracker.check, h1, h2]
  · intro s a now h1 h2 h3
    simp only [SpendingTracker.check, if_neg h1, if_neg h2]
    rw [if_pos h3]
  · refine ⟨by decide, by decide, by decide⟩

/-- Claim C5 witness: with limits `{perPayment := 5, total := 5, rate := 1}`
and one prior 4-sat spend, a 6-sat payment violates both the per-payment
cap (6 > 5) and the total budget (4 + 6 > 5), and `check` surfaces the
per-payment message; a 2-sat payment inside the budget but beyond the rate
window surfaces the rate message. -/
theorem spendingTracker_check_order_witness :
    (SpendingTracker.check
        { limits := { maxPerPaymentSats := 5, maxTotalSats := 5,
                      maxPaymentsPerMinute := 1 },
          history := [{ amount := 4, url := "u", timestamp := 50 }],
          totalSpent := 4 } 6 60 =
      .error (SpendingTracker.perPaymentMsg 6 5)) ∧
    (SpendingTracker.check
        { limits := { maxPerPaymentSats := 5, maxTotalSats := 50,
                      maxPaymentsPerMinute := 1 },
          history := [{ amount := 4, url := "u", timestamp := 50 }],
          totalSpent := 4 } 2 60 =
      .error (SpendingTracker.rateMsg 1)) := by
  constructor
  · exact spendingTracker_check_order.1 _ 6 60 (by decide)
  · exact spendingTracker_check_order.2.2.1 _ 2 60 (by decide) (by decide)
      (by decide)


/-! ### Claim C9: tracker invariant over operation traces -/

/-- An operation on a `SpendingTracker` instance, tagged with the
`Date.now()` value at which it runs.  `checkOp` and `getOp` (the getters
`spent`, `remaining`, `paymentCount`) read state without writing, which the
source expresses by the absence of any assignment in those members. -/
inductive TrackerOp where
  | recordOp (amount : Int) (url : String) (time : Int)
  | checkOp (amount : Int) (time : Int)
  | resetOp
  | getOp
deriving Repr, DecidableEq

/-- One operation applied to the tracker state, paired with the ghost list
of all records appended since the last reset (never pruned). -/
def trackerStep (sg : SpendingTracker × List SpendingRecord)
    (op : TrackerOp) : SpendingTracker × List SpendingRecord :=
  match op with
  | .recordOp a u t =>
      (sg.1.record a u t, sg.2 ++ [{ amount := a, url := u, timestamp := t }])
  | .checkOp _ _ => sg
  | .resetOp => (sg.1.reset, [])
  | .getOp => sg

/-- Run a trace of operations from a freshly constructed tracker. -/
def runTrackerOps (limits : SpendingLimit) (ops : List TrackerOp) :
    SpendingTracker × List SpendingRecord :=
  ops.foldl trackerStep (SpendingTracker.mk0 limits, [])

/-- The clock value of an operation, when it carries one. -/
def TrackerOp.time : TrackerOp → Option Int
  | .recordOp _ _ t => some t
  | .checkOp _ t => some t
  | .resetOp => none
  | .getOp => none

/-- The trace is chronological: each timed operation runs no earlier than
the one before it (`Date.now()` is nondecreasing). -/
def Chronological : Int → List TrackerOp → Prop
  | _, [] => True
  | t, op :: ops =>
    match op.time with
    | some t2 => t ≤ t2 ∧ Chronological t2 ops
    | none => Chronological t ops

/-- The clock value after a trace. -/
def traceEnd (t : Int) : List TrackerOp → Int
  | [] => t
  | op :: ops =>
    match op.time with
    | some t2 => traceEnd t2 ops
    | none => traceEnd t ops

/-- The tracker invariant at clock `t`: the running total is the sum of
all amounts recorded since the last reset; `history` is that ghost list
minus a pruned prefix every element of which has left the 60 second
window; and every recorded timestamp is at most `t`. -/
def TrackerInv (s : SpendingTracker) (g : List SpendingRecord)
    (t : Int) : Prop :=
  s.totalSpent = (g.map (·.amount)).sum ∧
  (∃ d, g = d ++ s.history ∧ ∀ r ∈ d, r.timestamp ≤ t - 60000) ∧
  (∀ r ∈ g, r.timestamp ≤ t)

theorem trackerInv_mono {s : SpendingTracker} {g : List SpendingRecord}
    {t t2 : Int} (h : TrackerInv s g t) (ht : t ≤ t2) : TrackerInv s g t2 := by
  obtain ⟨h1, ⟨d, hd, hold⟩, hts⟩ := h
  exact ⟨h1, ⟨d, hd, fun r hr => le_trans (hold r hr) (by omega)⟩,
    fun r hr => le_trans (hts r hr) ht⟩

theorem take_findIdx?_false {α} (p : α → Bool) (l : List α) (k : Nat)
    (h : l.findIdx? p = some k) : ∀ x ∈ l.take k, p x = false := by
  intro x hx
  rw [List.findIdx?_eq_some_iff_getElem] at h
  obtain ⟨hk, _, hlt⟩ := h
  obtain ⟨j, hj, rfl⟩ := List.mem_iff_getElem.mp hx
  have hjk : j < k := lt_of_lt_of_le hj (by simp [List.length_take_le])
  have := hlt j hjk
  rw [List.getElem_take]
  simpa using this

theorem trackerInv_record {s : SpendingTracker} {g : List SpendingRecord}
    {t : Int} (h : TrackerInv s g t) (a : Int) (u : String) (t2 : Int)
    (ht : t ≤ t2) :
    TrackerInv (s.record a u t2)
      (g ++ [{ amount := a, url := u, timestamp := t2 }]) t2 := by
  obtain ⟨h1, ⟨d, hd, hold⟩, hts⟩ := trackerInv_mono h ht
  set r : SpendingRecord := { amount := a, url := u, timestamp := t2 }
  have hg : g ++ [r] = d ++ (s.history ++ [r]) := by rw [hd, List.append_assoc]
  refine ⟨?_, ?_, ?_⟩
  · simp [SpendingTracker.record, h1]
  · show ∃ d2, g ++ [r] = d2 ++ (s.record a u t2).history ∧ _
    simp only [SpendingTracker.record]
    set hist := s.history ++ [r] with hhist
    match hfi : hist.findIdx? (fun x => decide (x.timestamp > t2 - 60000)) with
    | some k =>
      by_cases hk : k > 0
      · refine ⟨d ++ hist.take k, ?_, ?_⟩
        · simp only [hfi, hk, if_true]
          rw [hg, List.append_assoc, List.take_append_drop]
        · intro x hx
          rcases List.mem_append.mp hx with hx | hx
          · exact hold x hx
          · have := take_findIdx?_false _ hist k hfi x hx
            simp only [decide_eq_false_iff_not, not_lt] at this
            exact this
      · refine ⟨d, ?_, fun x hx => hold x hx⟩
        simp only [hfi, hk, if_false]
        exact hg
    | none =>
      refine ⟨d, ?_, fun x hx => hold x hx⟩
      simp only [hfi]
      exact hg
  · intro x hx
    rcases List.mem_append.mp hx with hx | hx
    · exact hts x hx
    · simp only [List.mem_singleton] at hx
      subst hx
      exact le_refl _

theorem trackerInv_run :
    ∀ (ops : List TrackerOp) (s : SpendingTracker)
      (g : List SpendingRecord) (t : Int),
      TrackerInv s g t → Chronological t ops →
      TrackerInv (ops.foldl trackerStep (s, g)).1
        (ops.foldl trackerStep (s, g)).2 (traceEnd t ops) := by
  intro ops
  induction ops with
  | nil => intro s g t h _; exact h
  | cons op ops ih =>
    intro s g t h hc
    match op with
    | .recordOp a u t2 =>
      obtain ⟨ht, hc2⟩ := hc
      exact ih _ _ t2 (trackerInv_record h a u t2 ht) hc2
    | .checkOp a t2 =>
      obtain ⟨ht, hc2⟩ := hc
      exact ih _ _ t2 (trackerInv_mono h ht) hc2
    | .resetOp =>
      refine ih _ _ t ?_ hc
      exact ⟨by simp [SpendingTracker.reset], ⟨[], by simp [SpendingTracker.reset], by simp⟩,
        by simp⟩
    | .getOp => exact ih _ _ t h hc

/-- Claim C9: over any chronological trace of tracker operations starting
from a fresh tracker, `totalSpent` equals the sum of the amounts of all
records appended since the last reset (pruning inside `record` never
changes the total), and the 60 second rate window consulted by `check`
over the pruned `history` equals exactly the full since-reset record list
filtered by `timestamp > now - 60s`, for any `now` at or after the end of
the trace. -/
theorem spendingTracker_invariant (limits : SpendingLimit)
    (ops : List TrackerOp) (t0 : Int) (hc : Chronological t0 ops) :
    (runTrackerOps limits ops).1.totalSpent =
      (((runTrackerOps limits ops).2).map (·.amount)).sum ∧
    ∀ now : Int, traceEnd t0 ops ≤ now →
      ((runTrackerOps limits ops).1.history.filter
          (fun r => r.timestamp > now - 60000)) =
        ((runTrackerOps limits ops).2.filter
          (fun r => r.timestamp > now - 60000)) := by
  have hinit : TrackerInv (SpendingTracker.mk0 limits) [] t0 :=
    ⟨by simp [SpendingTracker.mk0], ⟨[], by simp [SpendingTracker.mk0], by simp⟩, by simp⟩
  have h := trackerInv_run ops _ _ t0 hinit hc
  obtain ⟨h1, ⟨d, hd, hold⟩, _⟩ := h
  refine ⟨h1, ?_⟩
  intro now hnow
  rw [show (runTrackerOps limits ops).2 = (runTrackerOps limits ops).2 from rfl]
  unfold runTrackerOps
  rw [hd, List.filter_append]
  have : d.filter (fun r => r.timestamp > now - 60000) = [] := by
    rw [List.filter_eq_nil_iff]
    intro r hr
    have := hold r hr
    simp only [decide_eq_true_eq, not_lt]
    omega
  rw [this, List.nil_append]

/-- Claim C9 witness: a concrete chronological trace — record 5 at t=10,
record 7 at t=70000 (which prunes the first record), then reset, then
record 3 at t=70005 — satisfies the invariant conclusions at now=70005. -/
theorem spendingTracker_invariant_witness :
    (runTrackerOps { maxPerPaymentSats := 100, maxTotalSats := 100,
                     maxPaymentsPerMinute := 10 }
        [.recordOp 5 "a" 10, .recordOp 7 "b" 70000, .resetOp,
         .recordOp 3 "c" 70005]).1.totalSpent = 3 ∧
    (runTrackerOps { maxPerPaymentSats := 100, maxTotalSats := 100,
                     maxPaymentsPerMinute := 10 }
        [.recordOp 5 "a" 10, .recordOp 7 "b" 70000, .resetOp,
         .recordOp 3 "c" 70005]).1.history.filter
        (fun r => r.timestamp > 70005 - 60000) =
      [{ amount := 3, url := "c", timestamp := 70005 }] := by
  have h := spendingTracker_invariant
    { maxPerPaymentSats := 100, maxTotalSats := 100,
      maxPaymentsPerMinute := 10 }
    [.recordOp 5 "a" 10, .recordOp 7 "b" 70000, .resetOp,
     .recordOp 3 "c" 70005] 0
    (by exact ⟨by decide, by decide, by decide, trivial⟩)
  refine ⟨?_, ?_⟩
  · rw [h.1]; decide
  · rw [h.2 70005 (by decide)]; decide


/-! ## Fewsats v0.2 payloads and offer selection (`src/fewsats.ts`) -/

/-- A single offer from the Fewsats v0.2 402 JSON body.  The runtime
validation in `parseFewsatsPaymentRequired` guarantees exactly these three
fields (`offer_id` a string, `amount` a number, `payment_methods` an array
whose element types are unchecked); the remaining interface fields
(`title`, `description`, `balance`, `currency`, `type`) are never
validated nor read by the engine and are omitted from the embedding. -/
structure FewsatsOffer where
  offer_id : String
  amount : Int
  payment_methods : List Json
deriving Repr

/-- The validated JSON body of a Fewsats v0.2 402 response. -/
structure FewsatsPaymentRequired where
  offers : List FewsatsOffer
  payment_context_token : String
  payment_request_url : String
  version : String
deriving Repr

/-- The per-offer runtime checks of `parseFewsatsPaymentRequired`:
`offer_id` must be a string, `amount` a number, `payment_methods` an
array.  A non-object (including `null` and arrays, whose string-keyed
reads yield `undefined`) fails the field checks. -/
def asFewsatsOffer (j : Json) : Option FewsatsOffer :=
  match j.getField "offer_id", j.getField "amount",
      j.getField "payment_methods" with
  | some (.str oid), some (.num a), some (.arr ms) => some ⟨oid, a, ms⟩
  | _, _, _ => none

/-- All offers must pass the per-offer checks. -/
def asFewsatsOffers : List Json → Option (List FewsatsOffer)
  | [] => some []
  | j :: js =>
    match asFewsatsOffer j, asFewsatsOffers js with
    | some o, some os => some (o :: os)
    | _, _ => none

/-- `parseFewsatsPaymentRequired` from `fewsats.ts`: attempts to read an
unknown JSON value as a Fewsats v0.2 payment-required payload, returning
`none` (never throwing) when the shape does not match: the body must be a
non-null object carrying `offers` (a non-empty array of valid offers),
`payment_context_token`, `payment_request_url` and `version` (strings). -/
def parseFewsatsPaymentRequired (body : Json) : Option FewsatsPaymentRequired :=
  match body.getField "offers", body.getField "payment_context_token",
      body.getField "payment_request_url", body.getField "version" with
  | some (.arr offerJs), some (.str pct), some (.str pru), some (.str ver) =>
    if offerJs.isEmpty then none
    else
      match asFewsatsOffers offerJs with
      | some offers => some ⟨offers, pct, pru, ver⟩
      | none => none
  | _, _, _, _ => none

/-- `o.payment_methods.includes("lightning")`: JS `includes` uses strict
equality, so only the string value matches. -/
def supportsLightning (o : FewsatsOffer) : Bool :=
  o.payment_methods.contains (Json.str "lightning")

/-- One insertion step of a stable sort by `amount`: a newly processed
(later) offer is placed after every already placed offer of less-or-equal
amount. -/
def insertByAmount (o : FewsatsOffer) : List FewsatsOffer → List FewsatsOffer
  | [] => [o]
  | y :: ys =>
    if o.amount < y.amount then o :: y :: ys else y :: insertByAmount o ys

/-- `lightningOffers.sort((a, b) => a.amount - b.amount)`: the ECMAScript
`Array.prototype.sort` is a stable sort; modelled as a stable insertion
sort processing the array left to right. -/
def sortByAmount (l : List FewsatsOffer) : List FewsatsOffer :=
  l.foldl (fun acc o => insertByAmount o acc) []

/-- `selectCheapestLightningOffer` from `fewsats.ts`: filter the offers
supporting lightning; if none remain, throw `L402ProtocolError`; otherwise
stable-sort by amount and take the first element. -/
def selectCheapestLightningOffer (offers : List FewsatsOffer) :
    Except String FewsatsOffer :=
  match sortByAmount (offers.filter supportsLightning) with
  | [] => .error "No offers support lightning payment method"
  | x :: _ => .ok x

/-! ### Claim C7: head of the stable sort is the leftmost minimum -/

/-- The leftmost minimum-amount element of `c :: l` (current champion `c`,
replaced only by a strictly cheaper later offer). -/
def championOffer (c : FewsatsOffer) : List FewsatsOffer → FewsatsOffer
  | [] => c
  | o :: os => championOffer (if o.amount < c.amount then o else c) os

theorem head?_foldl_insertByAmount :
    ∀ (l : List FewsatsOffer) (c : FewsatsOffer) (cs : List FewsatsOffer),
      (l.foldl (fun acc o => insertByAmount o acc) (c :: cs)).head? =
        some (championOffer c l) := by
  intro l
  induction l with
  | nil => intro c cs; rfl
  | cons o l ih =>
    intro c cs
    simp only [List.foldl_cons, championOffer]
    by_cases h : o.amount < c.amount
    · rw [if_pos h, show insertByAmount o (c :: cs) = o :: c :: cs
        from by rw [insertByAmount, if_pos h]]
      exact ih o (c :: cs)
    · rw [if_neg h, show insertByAmount o (c :: cs) =
        c :: insertByAmount o cs from by rw [insertByAmount, if_neg h]]
      exact ih c (insertByAmount o cs)

theorem championOffer_mem (c : FewsatsOffer) (l : List FewsatsOffer) :
    championOffer c l ∈ c :: l := by
  induction l generalizing c with
  | nil => exact List.mem_singleton.mpr rfl
  | cons o l ih =>
    rw [championOffer]
    rcases List.mem_cons.mp (ih (if o.amount < c.amount then o else c)) with h | h
    · rw [h]
      by_cases ho : o.amount < c.amount
      · simp [ho]
      · simp [ho]
    · exact List.mem_cons_of_mem _ (List.mem_cons_of_mem _ h)

theorem championOffer_min (c : FewsatsOffer) (l : List FewsatsOffer) :
    (championOffer c l).amount ≤ c.amount ∧
      ∀ o ∈ l, (championOffer c l).amount ≤ o.amount := by
  induction l generalizing c with
  | nil => exact ⟨le_refl _, by simp⟩
  | cons o l ih =>
    rw [championOffer]
    obtain ⟨h1, h2⟩ := ih (if o.amount < c.amount then o else c)
    by_cases ho : o.amount < c.amount
    · rw [if_pos ho] at h1 h2 ⊢
      exact ⟨le_trans h1 (le_of_lt ho), fun x hx => by
        rcases List.mem_cons.mp hx with h | h
        · rw [h]; exact h1
        · exact h2 x h⟩
    · rw [if_neg ho] at h1 h2 ⊢
      exact ⟨h1, fun x hx => by
        rcases List.mem_cons.mp hx with h | h
        · rw [h]; exact le_trans h1 (not_lt.mp ho)
        · exact h2 x h⟩

theorem championOffer_leftmost (c : FewsatsOffer) (l : List FewsatsOffer) :
    ∃ l₁ l₂, c :: l = l₁ ++ championOffer c l :: l₂ ∧
      ∀ o ∈ l₁, (championOffer c l).amount < o.amount := by
  induction l generalizing c with
  | nil => exact ⟨[], [], rfl, by simp⟩
  | cons o l ih =>
    rw [championOffer]
    by_cases ho : o.amount < c.amount
    · rw [if_pos ho]
      obtain ⟨l₁, l₂, hsplit, hlt⟩ := ih o
      refine ⟨c :: l₁, l₂, by rw [List.cons_append, ← hsplit], ?_⟩
      intro x hx
      rcases List.mem_cons.mp hx with h | h
      · rw [h]
        exact lt_of_le_of_lt (championOffer_min o l).1 ho
      · exact hlt x h
    · rw [if_neg ho]
      obtain ⟨l₁, l₂, hsplit, hlt⟩ := ih c
      match l₁, hsplit, hlt with
      | [], hsplit, hlt =>
        refine ⟨[], o :: l, ?_, by simp⟩
        simp only [List.nil_append] at hsplit ⊢
        injection hsplit with h1 h2
        rw [← h1]
      | c2 :: l₁', hsplit, hlt =>
        rw [List.cons_append] at hsplit
        injection hsplit with hc2 htail
        refine ⟨c :: o :: l₁', l₂, ?_, ?_⟩
        · rw [List.cons_append, List.cons_append, ← htail]
        · intro x hx
          have hchc : (championOffer c l).amount < c.amount := by
            have h0 := hlt c2 (by simp)
            rwa [← hc2] at h0
          rcases List.mem_cons.mp hx with h | h
          · rw [h]; exact hchc
          · rcases List.mem_cons.mp h with h | h
            · rw [h]
              exact lt_of_lt_of_le hchc (not_lt.mp ho)
            · exact hlt x (by simp [h])

/-- The three offers of the specification example. -/
def offerA : FewsatsOffer :=
  { offer_id := "a", amount := 500,
    payment_methods := [Json.str "lightning", Json.str "onchain"] }

def offerB : FewsatsOffer :=
  { offer_id := "b", amount := 100, payment_methods := [Json.str "lightning"] }

def offerC : FewsatsOffer :=
  { offer_id := "c", amount := 50, payment_methods := [Json.str "onchain"] }

/-- Claim C7: the default selector returns the minimum-amount offer among
those whose `payment_methods` include `"lightning"`, breaking amount ties
in favor of the earlier offer (every lightning offer before the chosen one
is strictly more expensive); with no lightning offer it fails with the
protocol error message naming the lightning payment method; and on the
specification example it returns the amount-100 offer. -/
theorem selectCheapestLightningOffer_spec :
    (∀ (offers : List FewsatsOffer) (r : FewsatsOffer),
        selectCheapestLightningOffer offers = .ok r →
        supportsLightning r ∧ r ∈ offers ∧
        (∀ o ∈ offers, supportsLightning o → r.amount ≤ o.amount) ∧
        (∃ l₁ l₂, offers.filter supportsLightning = l₁ ++ r :: l₂ ∧
          ∀ o ∈ l₁, r.amount < o.amount)) ∧
    (∀ offers : List FewsatsOffer,
        offers.filter supportsLightning = [] →
        selectCheapestLightningOffer offers =
          .error "No offers support lightning payment method") ∧
    selectCheapestLightningOffer [offerA, offerB, offerC] = .ok offerB := by
  refine ⟨?_, ?_, by rfl⟩
  · intro offers r hok
    match hf : offers.filter supportsLightning with
    | [] =>
      rw [selectCheapestLightningOffer, hf] at hok
      exact absurd hok (by simp [sortByAmount])
    | x :: xs =>
      rw [selectCheapestLightningOffer, hf] at hok
      have hhead : (sortByAmount (x :: xs)).head? = some (championOffer x xs) := by
        rw [sortByAmount]
        simp only [List.foldl_cons]
        exact head?_foldl_insertByAmount xs x []
      have hmatch : ∀ (l : List FewsatsOffer),
          (match l with
            | [] => (Except.error "No offers support lightning payment method" :
                Except String FewsatsOffer)
            | y :: _ => .ok y) = .ok r → l.head? = some r := by
        intro l h
        match l with
        | [] => exact absurd h (by simp)
        | y :: ys =>
          injection h with h
          rw [h]
          rfl
      have hhd := hmatch _ hok
      rw [hhead] at hhd
      have hr : r = championOffer x xs := by
        injection hhd with h
        exact h.symm
      subst hr
      have hmem : championOffer x xs ∈ x :: xs := championOffer_mem x xs
      have hmemf : championOffer x xs ∈ offers.filter supportsLightning := by
        rw [hf]; exact hmem
      have hmemo := List.mem_filter.mp hmemf
      refine ⟨hmemo.2, hmemo.1, ?_, ?_⟩
      · intro o ho hol
        have hof : o ∈ x :: xs := by
          rw [← hf]; exact List.mem_filter.mpr ⟨ho, hol⟩
        obtain ⟨h1, h2⟩ := championOffer_min x xs
        rcases List.mem_cons.mp hof with h | h
        · rw [h]; exact h1
        · exact h2 o h
      · obtain ⟨l₁, l₂, hsp, hlt⟩ := championOffer_leftmost x xs
        exact ⟨l₁, l₂, hsp, hlt⟩
  · intro offers hf
    rw [selectCheapestLightningOffer, hf]
    rfl

/-- Claim C7 witness: the general part applied to the specification
example list — the selector output supports lightning, is minimal among
lightning offers, and is leftmost among ties. -/
theorem selectCheapestLightningOffer_spec_witness :
    supportsLightning offerB ∧ offerB ∈ [offerA, offerB, offerC] ∧
    (∀ o ∈ [offerA, offerB, offerC], supportsLightning o →
      offerB.amount ≤ o.amount) := by
  have h := selectCheapestLightningOffer_spec.1 [offerA, offerB, offerC]
    offerB selectCheapestLightningOffer_spec.2.2
  exact ⟨h.1, h.2.1, h.2.2.1⟩


/-! ## Local BOLT11 amount decoder (`l402.ts`, `decodeInvoiceAmountLocal`) -/

/-- `lower.lastIndexOf("1")` on the character list: the index of the last
occurrence, or `-1` when absent. -/
def lastIndexOfChar (l : List Char) (c : Char) : Int :=
  match l.reverse.findIdx? (fun x => x = c) with
  | some k => (l.length : Int) - 1 - (k : Int)
  | none => -1

/-- The numeric value of a string of decimal digits (JS
`parseInt(digits, 10)`, exact since the digits are validated). -/
def digitsToNat (ds : List Char) : Nat :=
  ds.foldl (fun n c => 10 * n + (c.toNat - '0'.toNat)) 0

/-- The regex `^(\d+)([munp])$` applied to the amount segment: one or more
decimal digits followed by exactly one multiplier letter.  Returns the
parsed number and the multiplier letter. -/
def matchAmountGrammar (l : List Char) : Option (Nat × Char) :=
  match l.getLast? with
  | none => none
  | some mc =>
    let ds := l.dropLast
    if ds ≠ [] ∧ ds.all Char.isDigit ∧
        (mc = 'm' ∨ mc = 'u' ∨ mc = 'n' ∨ mc = 'p') then
      some (digitsToNat ds, mc)
    else none

/-- The multiplier table of `decodeInvoiceAmountLocal` (`m`, `u`, `n`,
`p`), as exact rationals.  The source computes `amount * mult` in floating
point before `Math.round`; the embedding performs the same arithmetic
exactly over `ℚ`. -/
def bolt11Multiplier (mc : Char) : ℚ :=
  if mc = 'm' then 100000
  else if mc = 'u' then 100
  else if mc = 'n' then 1 / 10
  else 1 / 10000

/-- JS `Math.round`: the nearest integer, halves rounded toward positive
infinity, i.e. `⌊x + 1/2⌋`. -/
def jsRound (q : ℚ) : Int := ⌊q + 1 / 2⌋

/-- `decodeInvoiceAmountLocal` from `l402.ts`: lower-case the invoice,
recognize the network tag (`lnbcrt` before `lntb`/`lnbc`), locate the last
`1` separator, and parse the segment in between against the
digits-plus-multiplier grammar; errors are the three `L402ProtocolError`
messages of the source. -/
def decodeInvoiceAmountLocal (invoice : String) : Except String Int :=
  let lower := invoice.data.map Char.toLower
  let amountStartRes : Except String Nat :=
    if lower.take 6 = "lnbcrt".data then .ok 6
    else if lower.take 4 = "lntb".data ∨ lower.take 4 = "lnbc".data then .ok 4
    else .error "Cannot decode invoice: unrecognized network prefix"
  match amountStartRes with
  | .error e => .error e
  | .ok amountStart =>
    let separatorIndex := lastIndexOfChar lower '1'
    if separatorIndex ≤ (amountStart : Int) then
      .error "Cannot decode invoice amount: no amount specified"
    else
      let amountPart := (lower.drop amountStart).take
        (separatorIndex - (amountStart : Int)).toNat
      match matchAmountGrammar amountPart with
      | none => .error "Cannot decode invoice amount: invalid format"
      | some (amount, mc) =>
        .ok (jsRound ((amount : ℚ) * bolt11Multiplier mc))


/-- Claim C6 helper: the last `1` of a string of the known invoice shape
sits right after the digits-plus-multiplier segment. -/
theorem lastIndexOfChar_shape (p ds rest : List Char) (mc : Char)
    (hrest : '1' ∉ rest) :
    lastIndexOfChar (p ++ ds ++ mc :: '1' :: rest) '1' =
      (p.length : Int) + ds.length + 1 := by
  have hnone : rest.reverse.findIdx? (fun x => x = '1') = none := by
    rw [List.findIdx?_eq_none_iff]
    intro x hx
    simp only [decide_eq_false_iff_not]
    intro h
    exact hrest (by rw [← h]; exact List.mem_reverse.mp hx)
  rw [lastIndexOfChar]
  have hrev : (p ++ ds ++ mc :: '1' :: rest).reverse =
      rest.reverse ++ '1' :: mc :: (ds.reverse ++ p.reverse) := by
    simp [List.reverse_append]
  rw [hrev]
  rw [List.findIdx?_append, hnone]
  simp only [Option.none_or, List.findIdx?_cons]
  rw [if_pos (by simp)]
  simp only [Option.map_some', List.length_append, List.length_cons,
    List.length_reverse]
  push_cast
  omega

/-- Claim C6: the local fallback decoder returns
`round(amount * multiplier)` — with the source multiplier table
`m = 100000`, `u = 100`, `n = 1/10`, `p = 1/10000` and JS rounding
`⌊x + 1/2⌋` — applied to the numeric token between the recognized network
tag (`lnbc`, `lntb`, `lnbcrt`) and the last `1` separator; it raises the
unrecognized-network-prefix protocol error when no tag matches, the
no-amount protocol error when the last `1` does not lie beyond the tag,
and the invalid-format protocol error when the segment fails the
digits-plus-multiplier grammar. -/
theorem decodeInvoiceAmountLocal_spec :
    (∀ (invoice : String) (p ds rest : List Char) (mc : Char),
        invoice.data.map Char.toLower = p ++ ds ++ mc :: '1' :: rest →
        (p = "lnbc".data ∨ p = "lntb".data ∨ p = "lnbcrt".data) →
        ds ≠ [] → ds.all Char.isDigit →
        (mc = 'm' ∨ mc = 'u' ∨ mc = 'n' ∨ mc = 'p') →
        '1' ∉ rest →
        decodeInvoiceAmountLocal invoice =
          .ok (jsRound ((digitsToNat ds : ℚ) * bolt11Multiplier mc))) ∧
    (bolt11Multiplier 'm' = 100000 ∧ bolt11Multiplier 'u' = 100 ∧
      bolt11Multiplier 'n' = 1 / 10 ∧ bolt11Multiplier 'p' = 1 / 10000) ∧
    (∀ invoice : String,
        (invoice.data.map Char.toLower).take 6 ≠ "lnbcrt".data →
        (invoice.data.map Char.toLower).take 4 ≠ "lntb".data →
        (invoice.data.map Char.toLower).take 4 ≠ "lnbc".data →
        decodeInvoiceAmountLocal invoice =
          .error "Cannot decode invoice: unrecognized network prefix") ∧
    (∀ (invoice : String) (amountStart : Nat),
        (if (invoice.data.map Char.toLower).take 6 = "lnbcrt".data then
            some 6
          else if (invoice.data.map Char.toLower).take 4 = "lntb".data ∨
              (invoice.data.map Char.toLower).take 4 = "lnbc".data then
            some 4
          else none) = some amountStart →
        lastIndexOfChar (invoice.data.map Char.toLower) '1' ≤
          (amountStart : Int) →
        decodeInvoiceAmountLocal invoice =
          .error "Cannot decode invoice amount: no amount specified") ∧
    (∀ (invoice : String) (amountStart : Nat),
        (if (invoice.data.map Char.toLower).take 6 = "lnbcrt".data then
            some 6
          else if (invoice.data.map Char.toLower).take 4 = "lntb".data ∨
              (invoice.data.map Char.toLower).take 4 = "lnbc".data then
            some 4
          else none) = some amountStart →
        lastIndexOfChar (invoice.data.map Char.toLower) '1' >
          (amountStart : Int) →
        matchAmountGrammar (((invoice.data.map Char.toLower).drop
            amountStart).take
          (lastIndexOfChar (invoice.data.map Char.toLower) '1' -
            (amountStart : Int)).toNat) = none →
        decodeInvoiceAmountLocal invoice =
          .error "Cannot decode invoice amount: invalid format") := by
  refine ⟨?_, ⟨by rfl, by rfl, by rfl, by rfl⟩, ?_, ?_, ?_⟩
  · intro invoice p ds rest mc hlow hp hds hdig hmc hrest
    obtain ⟨d, ds', rfl⟩ := List.exists_cons_of_ne_nil hds
    have hd : d.isDigit := by
      have h := hdig
      simp only [List.all_cons, Bool.and_eq_true] at h
      exact h.1
    have hsep := lastIndexOfChar_shape p (d :: ds') rest mc hrest
    have hstart : (if (invoice.data.map Char.toLower).take 6 =
          "lnbcrt".data then Except.ok 6
        else if (invoice.data.map Char.toLower).take 4 = "lntb".data ∨
            (invoice.data.map Char.toLower).take 4 = "lnbc".data then
          Except.ok 4
        else
          Except.error
            "Cannot decode invoice: unrecognized network prefix") =
        Except.ok p.length ∧ p.length = 4 ∨
        (invoice.data.map Char.toLower).take 6 = "lnbcrt".data ∧
          p.length = 6 := by
      rcases hp with rfl | rfl | rfl
      · refine Or.inl ⟨?_, rfl⟩
        have h6 : ¬ (invoice.data.map Char.toLower).take 6 =
            "lnbcrt".data := by
          rw [hlow]
          intro hh
          simp only [show "lnbc".data = ['l', 'n', 'b', 'c'] from rfl,
            show "lnbcrt".data = ['l', 'n', 'b', 'c', 'r', 't'] from rfl,
            List.cons_append, List.nil_append, List.take_succ_cons,
            List.cons.injEq, true_and] at hh
          obtain ⟨rfl, -⟩ := hh
          exact absurd hd (by decide)
        have h4 : (invoice.data.map Char.toLower).take 4 = "lntb".data ∨
            (invoice.data.map Char.toLower).take 4 = "lnbc".data := by
          right
          rw [hlow]
          rfl
        rw [if_neg h6, if_pos h4]
        rfl
      · refine Or.inl ⟨?_, rfl⟩
        have h6 : ¬ (invoice.data.map Char.toLower).take 6 =
            "lnbcrt".data := by
          rw [hlow]
          intro hh
          simp only [show "lntb".data = ['l', 'n', 't', 'b'] from rfl,
            show "lnbcrt".data = ['l', 'n', 'b', 'c', 'r', 't'] from rfl,
            List.cons_append, List.nil_append, List.take_succ_cons,
            List.cons.injEq, true_and] at hh
          exact absurd hh.1 (by decide)
        have h4 : (invoice.data.map Char.toLower).take 4 = "lntb".data ∨
            (invoice.data.map Char.toLower).take 4 = "lnbc".data := by
          left
          rw [hlow]
          rfl
        rw [if_neg h6, if_pos h4]
        rfl
      · refine Or.inr ⟨?_, rfl⟩
        rw [hlow]
        rfl
    have main : ∀ hlen : p.length = 4 ∨ p.length = 6,
        (let lower := invoice.data.map Char.toLower
        let separatorIndex := lastIndexOfChar lower '1'
        if separatorIndex ≤ (p.length : Int) then
          (Except.error "Cannot decode invoice amount: no amount specified" :
            Except String Int)
        else
          let amountPart := (lower.drop p.length).take
            (separatorIndex - (p.length : Int)).toNat
          match matchAmountGrammar amountPart with
          | none => .error "Cannot decode invoice amount: invalid format"
          | some (amount, mc) =>
            .ok (jsRound ((amount : ℚ) * bolt11Multiplier mc))) =
        .ok (jsRound ((digitsToNat (d :: ds') : ℚ) * bolt11Multiplier mc)) := by
      intro _
      simp only
      rw [hlow, hsep]
      rw [if_neg (by
        simp only [List.length_cons, not_le]
        push_cast
        omega)]
      have hslice : (((p ++ (d :: ds') ++ mc :: '1' :: rest).drop p.length).take
          ((((p.length : Int) + (d :: ds').length + 1) -
            (p.length : Int)).toNat)) = (d :: ds') ++ [mc] := by
        rw [List.append_assoc, List.drop_left]
        have : (((p.length : Int) + (d :: ds').length + 1) -
            (p.length : Int)).toNat = (d :: ds').length + 1 := by
          omega
        rw [this]
        rw [show ((d :: ds') ++ mc :: '1' :: rest) =
          ((d :: ds') ++ [mc]) ++ '1' :: rest by simp]
        rw [List.take_append_of_le_length (by simp)]
        rw [List.take_of_length_le (by simp)]
      rw [hslice]
      have hgram : matchAmountGrammar ((d :: ds') ++ [mc]) =
          some (digitsToNat (d :: ds'), mc) := by
        rw [matchAmountGrammar]
        rw [List.getLast?_concat]
        simp only [List.dropLast_concat]
        rw [if_pos ⟨hds, hdig, hmc⟩]
      rw [hgram]
    rcases hstart with ⟨h1, h2⟩ | ⟨h1, h2⟩
    · simp only [decodeInvoiceAmountLocal]
      rw [h1]
      exact main (Or.inl h2)
    · simp only [decodeInvoiceAmountLocal]
      rw [if_pos h1]
      rw [show (6 : Nat) = p.length from h2.symm]
      exact main (Or.inr h2)
  · intro invoice h6 htb hbc
    simp only [decodeInvoiceAmountLocal]
    rw [if_neg h6, if_neg (by
      intro h
      rcases h with h | h
      · exact htb h
      · exact hbc h)]
  · intro invoice amountStart hstart hsep
    simp only [decodeInvoiceAmountLocal]
    by_cases h6 : (invoice.data.map Char.toLower).take 6 = "lnbcrt".data
    · rw [if_pos h6] at hstart
      injection hstart with h
      subst h
      rw [if_pos h6]
      show (if lastIndexOfChar (invoice.data.map Char.toLower) '1' ≤
          ((6 : Nat) : Int) then
        (Except.error "Cannot decode invoice amount: no amount specified" :
          Except String Int)
        else _) = _
      rw [if_pos hsep]
    · rw [if_neg h6] at hstart
      rw [if_neg h6]
      by_cases h4 : (invoice.data.map Char.toLower).take 4 = "lntb".data ∨
          (invoice.data.map Char.toLower).take 4 = "lnbc".data
      · rw [if_pos h4] at hstart
        injection hstart with h
        subst h
        rw [if_pos h4]
        show (if lastIndexOfChar (invoice.data.map Char.toLower) '1' ≤
            ((4 : Nat) : Int) then
          (Except.error "Cannot decode invoice amount: no amount specified" :
            Except String Int)
          else _) = _
        rw [if_pos hsep]
      · rw [if_neg h4] at hstart
        exact absurd hstart (by simp)
  · intro invoice amountStart hstart hsep hgram
    simp only [decodeInvoiceAmountLocal]
    by_cases h6 : (invoice.data.map Char.toLower).take 6 = "lnbcrt".data
    · rw [if_pos h6] at hstart
      injection hstart with h
      subst h
      rw [if_pos h6]
      show (if lastIndexOfChar (invoice.data.map Char.toLower) '1' ≤
          ((6 : Nat) : Int) then
        (Except.error "Cannot decode invoice amount: no amount specified" :
          Except String Int)
        else _) = _
      rw [if_neg (not_le.mpr hsep)]
      rw [hgram]
    · rw [if_neg h6] at hstart
      rw [if_neg h6]
      by_cases h4 : (invoice.data.map Char.toLower).take 4 = "lntb".data ∨
          (invoice.data.map Char.toLower).take 4 = "lnbc".data
      · rw [if_pos h4] at hstart
        injection hstart with h
        subst h
        rw [if_pos h4]
        show (if lastIndexOfChar (invoice.data.map Char.toLower) '1' ≤
            ((4 : Nat) : Int) then
          (Except.error "Cannot decode invoice amount: no amount specified" :
            Except String Int)
          else _) = _
        rw [if_neg (not_le.mpr hsep)]
        rw [hgram]
      · rw [if_neg h4] at hstart
        exact absurd hstart (by simp)

/-- Claim C6 witness: the specification example — a mainnet invoice
carrying the amount token `10u` decodes to `round(10 * 100) = 1000`
satoshis — plus the three concrete protocol errors. -/
theorem decodeInvoiceAmountLocal_spec_witness :
    decodeInvoiceAmountLocal "lnbc10u1pqqqsqqq" = .ok 1000 ∧
    decodeInvoiceAmountLocal "xyz1" =
      .error "Cannot decode invoice: unrecognized network prefix" ∧
    decodeInvoiceAmountLocal "lnbc1" =
      .error "Cannot decode invoice amount: no amount specified" ∧
    decodeInvoiceAmountLocal "lnbc10x1pqqqsqqq" =
      .error "Cannot decode invoice amount: invalid format" := by
  refine ⟨?_, ?_, ?_, ?_⟩
  · have h := decodeInvoiceAmountLocal_spec.1 "lnbc10u1pqqqsqqq" "lnbc".data
      ['1', '0'] "pqqqsqqq".data 'u' (by decide) (Or.inl rfl) (by decide)
      (by decide) (Or.inr (Or.inl rfl)) (by decide)
    rw [h, show digitsToNat ['1', '0'] = 10 from rfl]
    congr 1
    rw [show bolt11Multiplier 'u' = 100 from by decide]
    norm_num [jsRound]
  · exact decodeInvoiceAmountLocal_spec.2.2.1 "xyz1" (by decide) (by decide)
      (by decide)
  · exact decodeInvoiceAmountLocal_spec.2.2.2.1 "lnbc1" 4 (by decide)
      (by decide)
  · exact decodeInvoiceAmountLocal_spec.2.2.2.2 "lnbc10x1pqqqsqqq" 4
      (by decide) (by decide) (by decide)


/-! ## L402 client orchestration (`l402.ts`) -/

/-- `PaymentResult` from `payment-provider.ts`. -/
structure PayResult where
  preimage : String
  paymentHash : String
  status : String
deriving Repr, DecidableEq

/-- The `PaymentProvider` interface: `payInvoice` (failures become
`Except.error` with the thrown message) and the optional duck-typed
`getInvoiceAmountSats` capability. -/
structure ProviderModel where
  payInvoice : String → Except String PayResult
  getInvoiceAmountSats : Option (String → Except String Int)

/-- An HTTP response as observed by the client: status code, the
`www-authenticate` header, the body parsed as JSON when possible
(`none` models a `response.json()` failure), and the body text. -/
structure Resp where
  status : Int
  wwwAuth : Option String
  bodyJson : Option Json
  bodyText : String
deriving Repr

/-- `Response.ok`: status in the 200-299 range. -/
def respOk (r : Resp) : Bool := 200 ≤ r.status && r.status < 300

/-- The network as a deterministic oracle: `respond url headers` is the
response to a GET of `url` with the given request headers, and
`prRespond prUrl offerId contextToken` the response to the payment-request
POST built by the offer-based flow. -/
structure ServerModel where
  respond : String → List (String × String) → Resp
  prRespond : String → String → String → Resp

/-- The error taxonomy of `errors.ts`, plus `raw` for an exception that
none of the client code wraps (e.g. a throwing provider decode). -/
inductive L402Error where
  | budget (msg : String) : L402Error
  | payment (msg : String) : L402Error
  | protocol (msg : String) : L402Error
  | raw (msg : String) : L402Error
deriving Repr, DecidableEq

/-- Observable side effects of a `fetch` call, in execution order. -/
inductive Effect where
  | fetchReq (url : String) (headers : List (String × String)) : Effect
  | cacheDelete (url : String) : Effect
  | cacheSet (url macaroon preimage : String) : Effect
  | payEff (invoice : String) : Effect
  | recordSpend (amount : Int) (url : String) : Effect
  | postPaymentRequest (prUrl offerId contextToken : String) : Effect
deriving Repr, DecidableEq

/-- The mutable state owned by an `L402Client` instance (token cache and
optional spending tracker; the in-flight map is empty for the sequential
single-call model and is treated explicitly in the concurrent model). -/
structure ClientState where
  cache : TokenCache
  spending : Option SpendingTracker
deriving Repr, DecidableEq

/-- The client configuration: payment provider, per-payment ceiling
(default 1000 in the source constructor), offer strategy (default
`selectCheapestLightningOffer`), and the ambient network oracle. -/
structure ClientConfig where
  provider : ProviderModel
  maxPaymentSats : Int
  offerStrategy : List FewsatsOffer → Except String FewsatsOffer
  server : ServerModel

/-- Case-insensitive header-name equality (the `Headers` class normalizes
names). -/
def headerNameEq (a b : String) : Bool :=
  a.data.map Char.toLower == b.data.map Char.toLower

/-- `headers.set(k, v)`: replaces any existing value for the name. -/
def setHeader (hs : List (String × String)) (k v : String) :
    List (String × String) :=
  hs.filter (fun p => ¬ headerNameEq p.1 k) ++ [(k, v)]

/-- `headers.get(k)`. -/
def getHeader (hs : List (String × String)) (k : String) : Option String :=
  (hs.find? (fun p => headerNameEq p.1 k)).map (·.2)

/-- Greedy capture of `([^"]+)"`: a maximal nonempty run of non-quote
characters that must be terminated by a closing quote. -/
def captureQuoted (l : List Char) : Option (List Char) :=
  let cap := l.takeWhile (fun c => ¬ c = '"')
  if cap ≠ [] ∧ (l.drop cap.length).head? = some '"' then some cap else none

/-- First-match semantics of the regex `key="([^"]+)"` scanning left to
right with backtracking to later start positions on capture failure. -/
def findQuotedAfter (pat : List Char) : List Char → Option (List Char)
  | [] => none
  | c :: rest =>
    if (c :: rest).take pat.length = pat then
      match captureQuoted ((c :: rest).drop pat.length) with
      | some s => some s
      | none => findQuotedAfter pat rest
    else findQuotedAfter pat rest

/-- `header.match(/key="([^"]+)"/)?.[1]`. -/
def matchQuotedParam (header key : String) : Option String :=
  (findQuotedAfter (key.data ++ ['=', '"']) header.data).map
    (fun l => String.mk l)

/-- `parseWwwAuthenticate` from `l402.ts`: extracts the quoted `macaroon`
and `invoice` parameters; absence of either is a protocol error. -/
def parseWwwAuthenticate (header : String) :
    Except L402Error (String × String) :=
  match matchQuotedParam header "macaroon",
      matchQuotedParam header "invoice" with
  | some m, some i => .ok (m, i)
  | _, _ =>
    .error (.protocol ("Invalid WWW-Authenticate header: " ++ header))

/-- Amount resolution: prefer the provider's authoritative decoder when
the optional capability exists, otherwise fall back to
`decodeInvoiceAmountLocal`.  A throwing provider decoder propagates
unwrapped (`raw`); the local decoder throws `L402ProtocolError`. -/
def resolveAmount (provider : ProviderModel) (invoice : String) :
    Except L402Error Int :=
  match provider.getInvoiceAmountSats with
  | some f =>
    match f invoice with
    | .ok a => .ok a
    | .error e => .error (.raw e)
  | none =>
    match decodeInvoiceAmountLocal invoice with
    | .ok a => .ok a
    | .error msg => .error (.protocol msg)

/-- The ceiling error message of both handlers. -/
def ceilingMsg (amountSats maxPaymentSats : Int) : String :=
  "Invoice amount " ++ toString amountSats ++ " sats exceeds limit of " ++
    toString maxPaymentSats ++ " sats"

/-- `this.spending?.check(amountSats)`: absent tracker means no
enforcement; a tracker failure is an `L402BudgetError`. -/
def checkSpendingOpt (s : Option SpendingTracker) (amount now : Int) :
    Except L402Error Unit :=
  match s with
  | none => .ok ()
  | some t =>
    match t.check amount now with
    | .ok _ => .ok ()
    | .error m => .error (.budget m)

/-- `this.spending?.record(amountSats, url)`. -/
def recordSpendingOpt (s : Option SpendingTracker) (amount : Int)
    (url : String) (now : Int) : Option SpendingTracker :=
  s.map (fun t => t.record amount url now)

/-- `handleClassicL402` from `l402.ts`, sequential single-call view:
parse the challenge, resolve the amount, enforce the ceiling, consult the
tracker, pay, record the spend, cache the credential, and reissue the
request with the `L402 macaroon:preimage` authorization attached.  The
in-flight marker is registered just before `payInvoice` and removed in the
`finally`; with no concurrent caller it has no observable effect here. -/
def handleClassicL402 (cfg : ClientConfig) (url : String)
    (initHeaders : List (String × String)) (wwwAuth : String) (now : Int)
    (st : ClientState) :
    Except L402Error Resp × ClientState × List Effect :=
  match parseWwwAuthenticate wwwAuth with
  | .error e => (.error e, st, [])
  | .ok (macaroon, invoice) =>
    match resolveAmount cfg.provider invoice with
    | .error e => (.error e, st, [])
    | .ok amountSats =>
      if amountSats > cfg.maxPaymentSats then
        (.error (.budget (ceilingMsg amountSats cfg.maxPaymentSats)), st, [])
      else
        match checkSpendingOpt st.spending amountSats now with
        | .error e => (.error e, st, [])
        | .ok _ =>
          match cfg.provider.payInvoice invoice with
          | .error msg =>
            (.error (.payment ("Payment failed: " ++ msg)), st,
              [.payEff invoice])
          | .ok payment =>
            let st2 : ClientState :=
              { cache := st.cache.set url macaroon payment.preimage none now,
                spending := recordSpendingOpt st.spending amountSats url now }
            let headers := setHeader initHeaders "Authorization"
              ("L402 " ++ macaroon ++ ":" ++ payment.preimage)
            (.ok (cfg.server.respond url headers), st2,
              [.payEff invoice, .recordSpend amountSats url,
               .cacheSet url macaroon payment.preimage,
               .fetchReq url headers])

/-- `paymentRequestData.payment_request?.lightning_invoice` followed by
the `if (!invoice)` truthiness guard: present only when the nested field
is a nonempty string. -/
def lightningInvoiceOf (j : Json) : Option String :=
  match j.getField "payment_request" with
  | some pr =>
    match pr.getField "lightning_invoice" with
    | some (.str s) => if s = "" then none else some s
    | _ => none
  | none => none

/-- `handleFewsatsV02` from `l402.ts`: select an offer, POST the
payment-request message, validate the response, resolve and bound the
invoice amount exactly as the classic flow does, pay, record the spend,
and reissue the original request with the caller-supplied headers
untouched.  No in-flight marker is registered and the cache is never
written in this flow. -/
def handleFewsatsV02 (cfg : ClientConfig) (url : String)
    (initHeaders : List (String × String))
    (payload : FewsatsPaymentRequired) (now : Int) (st : ClientState) :
    Except L402Error Resp × ClientState × List Effect :=
  match cfg.offerStrategy payload.offers with
  | .error msg => (.error (.protocol msg), st, [])
  | .ok selectedOffer =>
    let prResp := cfg.server.prRespond payload.payment_request_url
      selectedOffer.offer_id payload.payment_context_token
    let eff0 : List Effect := [.postPaymentRequest
      payload.payment_request_url selectedOffer.offer_id
      payload.payment_context_token]
    if ¬ respOk prResp then
      (.error (.payment ("Payment request endpoint returned " ++
        toString prResp.status ++ ": " ++ prResp.bodyText)), st, eff0)
    else
      match prResp.bodyJson with
      | none =>
        (.error (.protocol "Payment request response is not valid JSON"),
          st, eff0)
      | some j =>
        match lightningInvoiceOf j with
        | none =>
          (.error (.protocol
            "Payment request response missing lightning_invoice"), st, eff0)
        | some invoice =>
          match resolveAmount cfg.provider invoice with
          | .error e => (.error e, st, eff0)
          | .ok amountSats =>
            if amountSats > cfg.maxPaymentSats then
              (.error (.budget (ceilingMsg amountSats cfg.maxPaymentSats)),
                st, eff0)
            else
              match checkSpendingOpt st.spending amountSats now with
              | .error e => (.error e, st, eff0)
              | .ok _ =>
                match cfg.provider.payInvoice invoice with
                | .error msg =>
                  (.error (.payment ("Payment failed: " ++ msg)), st,
                    eff0 ++ [.payEff invoice])
                | .ok _ =>
                  let st2 : ClientState := { st with
                    spending :=
                      recordSpendingOpt st.spending amountSats url now }
                  (.ok (cfg.server.respond url initHeaders), st2,
                    eff0 ++ [.payEff invoice, .recordSpend amountSats url,
                      .fetchReq url initHeaders])

/-- The post-402 part of `fetch` (reached with no usable cached
credential and no in-flight payment): issue the request, return non-402
responses verbatim, otherwise classify the protocol variant — the
structured `www-authenticate` header always selects the classic flow, a
body matching the Fewsats v0.2 shape selects the offer-based flow, and
anything else is a protocol error. -/
def fetchNoCache (cfg : ClientConfig) (url : String)
    (initHeaders : List (String × String)) (now : Int) (st : ClientState)
    (effs : List Effect) :
    Except L402Error Resp × ClientState × List Effect :=
  let response := cfg.server.respond url initHeaders
  let effs1 := effs ++ [.fetchReq url initHeaders]
  if response.status ≠ 402 then
    (.ok response, st, effs1)
  else
    match response.wwwAuth with
    | some wwwAuth =>
      let r := handleClassicL402 cfg url initHeaders wwwAuth now st
      (r.1, r.2.1, effs1 ++ r.2.2)
    | none =>
      match response.bodyJson with
      | none =>
        (.error (.protocol
          "402 response has no WWW-Authenticate header and body is not valid JSON"),
          st, effs1)
      | some j =>
        match parseFewsatsPaymentRequired j with
        | none =>
          (.error (.protocol
            "402 response has no WWW-Authenticate header and body does not match Fewsats v0.2 format"),
            st, effs1)
        | some payload =>
          let r := handleFewsatsV02 cfg url initHeaders payload now st
          (r.1, r.2.1, effs1 ++ r.2.2)

/-- `L402Client.fetch` from `l402.ts`, sequential single-call view: try a
cached credential first (evicting it if the server replies 402 to the
credentialed request), then fall through to the uncredentialed request
and the payment flows.  The in-flight wait branch is vacuous here since no
other call is running. -/
def fetchModel (cfg : ClientConfig) (url : String)
    (initHeaders : List (String × String)) (now : Int) (st : ClientState) :
    Except L402Error Resp × ClientState × List Effect :=
  let g := st.cache.get url now
  match g.1 with
  | some cached =>
    let headers := setHeader initHeaders "Authorization"
      ("L402 " ++ cached.macaroon ++ ":" ++ cached.preimage)
    let cachedResponse := cfg.server.respond url headers
    if cachedResponse.status ≠ 402 then
      (.ok cachedResponse, { st with cache := g.2 }, [.fetchReq url headers])
    else
      fetchNoCache cfg url initHeaders now
        { st with cache := (g.2.delete url).2 }
        [.fetchReq url headers, .cacheDelete url]
  | none => fetchNoCache cfg url initHeaders now { st with cache := g.2 } []


/-- Claim C2: in both flows, once the invoice amount resolves strictly
above `maxPaymentSats`, the call fails with the budget error built from
the ceiling message, the client state (cache and tracker) is returned
unchanged, and the effect trace contains no `payInvoice` — for the classic
flow no effect at all, for the offer-based flow only the already issued
payment-request POST. -/
theorem ceiling_blocks_payment :
    (∀ (cfg : ClientConfig) (url : String) (hdrs : List (String × String))
        (wwwAuth : String) (now : Int) (st : ClientState)
        (mac inv : String) (a : Int),
        parseWwwAuthenticate wwwAuth = .ok (mac, inv) →
        resolveAmount cfg.provider inv = .ok a →
        a > cfg.maxPaymentSats →
        handleClassicL402 cfg url hdrs wwwAuth now st =
          (.error (.budget (ceilingMsg a cfg.maxPaymentSats)), st, [])) ∧
    (∀ (cfg : ClientConfig) (url : String) (hdrs : List (String × String))
        (payload : FewsatsPaymentRequired) (now : Int) (st : ClientState)
        (offer : FewsatsOffer) (j : Json) (inv : String) (a : Int),
        cfg.offerStrategy payload.offers = .ok offer →
        respOk (cfg.server.prRespond payload.payment_request_url
          offer.offer_id payload.payment_context_token) →
        (cfg.server.prRespond payload.payment_request_url offer.offer_id
          payload.payment_context_token).bodyJson = some j →
        lightningInvoiceOf j = some inv →
        resolveAmount cfg.provider inv = .ok a →
        a > cfg.maxPaymentSats →
        handleFewsatsV02 cfg url hdrs payload now st =
          (.error (.budget (ceilingMsg a cfg.maxPaymentSats)), st,
            [.postPaymentRequest payload.payment_request_url offer.offer_id
              payload.payment_context_token])) := by
  constructor
  · intro cfg url hdrs wwwAuth now st mac inv a hparse hres ha
    simp only [handleClassicL402, hparse, hres]
    rw [if_pos ha]
  · intro cfg url hdrs payload now st offer j inv a hsel hok hjson hinv
      hres ha
    simp only [handleFewsatsV02, hsel, hjson, hinv, hres]
    rw [if_neg (by simp [hok]), if_pos ha]

/-- Claim C4: with no cached credential, `fetch` classifies a 402
response as follows — a present `www-authenticate` header always routes to
the classic flow (no condition on the body, which may well be valid JSON);
an absent header with a body parsing as the Fewsats v0.2 shape routes to
the offer-based flow; an absent header with a non-JSON body, or a JSON
body not matching the shape, raises the respective protocol error. -/
theorem fetch402_classification (cfg : ClientConfig) (url : String)
    (hdrs : List (String × String)) (now : Int) (st : ClientState)
    (hmiss : (st.cache.get url now).1 = none)
    (h402 : (cfg.server.respond url hdrs).status = 402) :
    (∀ h, (cfg.server.respond url hdrs).wwwAuth = some h →
      fetchModel cfg url hdrs now st =
        ((handleClassicL402 cfg url hdrs h now
            { st with cache := (st.cache.get url now).2 }).1,
         (handleClassicL402 cfg url hdrs h now
            { st with cache := (st.cache.get url now).2 }).2.1,
         .fetchReq url hdrs ::
           (handleClassicL402 cfg url hdrs h now
             { st with cache := (st.cache.get url now).2 }).2.2)) ∧
    (∀ j payload, (cfg.server.respond url hdrs).wwwAuth = none →
      (cfg.server.respond url hdrs).bodyJson = some j →
      parseFewsatsPaymentRequired j = some payload →
      fetchModel cfg url hdrs now st =
        ((handleFewsatsV02 cfg url hdrs payload now
            { st with cache := (st.cache.get url now).2 }).1,
         (handleFewsatsV02 cfg url hdrs payload now
            { st with cache := (st.cache.get url now).2 }).2.1,
         .fetchReq url hdrs ::
           (handleFewsatsV02 cfg url hdrs payload now
             { st with cache := (st.cache.get url now).2 }).2.2)) ∧
    ((cfg.server.respond url hdrs).wwwAuth = none →
      (cfg.server.respond url hdrs).bodyJson = none →
      fetchModel cfg url hdrs now st =
        (.error (.protocol
          "402 response has no WWW-Authenticate header and body is not valid JSON"),
         { st with cache := (st.cache.get url now).2 },
         [.fetchReq url hdrs])) ∧
    (∀ j, (cfg.server.respond url hdrs).wwwAuth = none →
      (cfg.server.respond url hdrs).bodyJson = some j →
      parseFewsatsPaymentRequired j = none →
      fetchModel cfg url hdrs now st =
        (.error (.protocol
          "402 response has no WWW-Authenticate header and body does not match Fewsats v0.2 format"),
         { st with cache := (st.cache.get url now).2 },
         [.fetchReq url hdrs])) := by
  have hbase : fetchModel cfg url hdrs now st =
      fetchNoCache cfg url hdrs now
        { st with cache := (st.cache.get url now).2 } [] := by
    simp only [fetchModel, hmiss]
  refine ⟨?_, ?_, ?_, ?_⟩
  · intro h hww
    rw [hbase]
    simp only [fetchNoCache, hww]
    rw [if_neg (by rw [h402]; simp)]
    rfl
  · intro j payload hww hjson hparse
    rw [hbase]
    simp only [fetchNoCache, hww, hjson, hparse]
    rw [if_neg (by rw [h402]; simp)]
    rfl
  · intro hww hjson
    rw [hbase]
    simp only [fetchNoCache, hww, hjson]
    rw [if_neg (by rw [h402]; simp)]
    rfl
  · intro j hww hjson hparse
    rw [hbase]
    simp only [fetchNoCache, hww, hjson, hparse]
    rw [if_neg (by rw [h402]; simp)]
    rfl

/-- Claim C3: when the cached credential for `url` is rejected with a
fresh 402, `fetch` evicts it before the fallback payment — the effect
trace is exactly one `cacheDelete` followed (after the fallback request)
by exactly one `payInvoice` — and the cache state entering the payment
flow no longer resolves the rejected credential. -/
theorem cached_credential_evicted_then_repaid (cfg : ClientConfig)
    (url : String) (hdrs : List (String × String)) (now : Int)
    (st : ClientState) (cached : CachedToken) (ww mac inv : String)
    (a : Int) (payment : PayResult)
    (hcached : (st.cache.get url now).1 = some cached)
    (hrej : (cfg.server.respond url (setHeader hdrs "Authorization"
      ("L402 " ++ cached.macaroon ++ ":" ++ cached.preimage))).status = 402)
    (h402 : (cfg.server.respond url hdrs).status = 402)
    (hww : (cfg.server.respond url hdrs).wwwAuth = some ww)
    (hparse : parseWwwAuthenticate ww = .ok (mac, inv))
    (hres : resolveAmount cfg.provider inv = .ok a)
    (hceil : ¬ a > cfg.maxPaymentSats)
    (hcheck : checkSpendingOpt st.spending a now = .ok ())
    (hpay : cfg.provider.payInvoice inv = .ok payment) :
    (fetchModel cfg url hdrs now st).2.2 =
      [.fetchReq url (setHeader hdrs "Authorization"
          ("L402 " ++ cached.macaroon ++ ":" ++ cached.preimage)),
       .cacheDelete url, .fetchReq url hdrs, .payEff inv,
       .recordSpend a url, .cacheSet url mac payment.preimage,
       .fetchReq url (setHeader hdrs "Authorization"
          ("L402 " ++ mac ++ ":" ++ payment.preimage))] ∧
    ((fetchModel cfg url hdrs now st).2.2.filter
        (fun e => match e with | .payEff _ => true | _ => false)).length
      = 1 ∧
    ((((st.cache.get url now).2.delete url).2).get url now).1 = none := by
  have hrun : fetchModel cfg url hdrs now st =
      (.ok (cfg.server.respond url (setHeader hdrs "Authorization"
          ("L402 " ++ mac ++ ":" ++ payment.preimage))),
       { cache := (((st.cache.get url now).2.delete url).2).set url mac
           payment.preimage none now,
         spending := recordSpendingOpt st.spending a url now },
       [.fetchReq url (setHeader hdrs "Authorization"
           ("L402 " ++ cached.macaroon ++ ":" ++ cached.preimage)),
        .cacheDelete url, .fetchReq url hdrs, .payEff inv,
        .recordSpend a url, .cacheSet url mac payment.preimage,
        .fetchReq url (setHeader hdrs "Authorization"
           ("L402 " ++ mac ++ ":" ++ payment.preimage))]) := by
    simp only [fetchModel, hcached]
    rw [if_neg (by rw [hrej]; simp)]
    simp only [fetchNoCache, hww]
    rw [if_neg (by rw [h402]; simp)]
    simp only [handleClassicL402, hparse, hres]
    rw [if_neg hceil]
    simp only [hcheck, hpay]
    rfl
  refine ⟨by rw [hrun], by rw [hrun]; rfl, ?_⟩
  rw [TokenCache.get, TokenCache.lookup_delete]

/-- Claim C8: on a successful offer-based payment the orchestrator
records the spend and reissues the original request with the caller
supplied headers verbatim — the final request effect carries exactly
`hdrs`, the result is the response to that unmodified request, and the
token cache component of the state is untouched. -/
theorem fewsats_success_reissues_unchanged (cfg : ClientConfig)
    (url : String) (hdrs : List (String × String))
    (payload : FewsatsPaymentRequired) (now : Int) (st : ClientState)
    (offer : FewsatsOffer) (j : Json) (inv : String) (a : Int)
    (payment : PayResult)
    (hsel : cfg.offerStrategy payload.offers = .ok offer)
    (hok : respOk (cfg.server.prRespond payload.payment_request_url
      offer.offer_id payload.payment_context_token))
    (hjson : (cfg.server.prRespond payload.payment_request_url
      offer.offer_id payload.payment_context_token).bodyJson = some j)
    (hinv : lightningInvoiceOf j = some inv)
    (hres : resolveAmount cfg.provider inv = .ok a)
    (hceil : ¬ a > cfg.maxPaymentSats)
    (hcheck : checkSpendingOpt st.spending a now = .ok ())
    (hpay : cfg.provider.payInvoice inv = .ok payment) :
    handleFewsatsV02 cfg url hdrs payload now st =
      (.ok (cfg.server.respond url hdrs),
       { cache := st.cache,
         spending := recordSpendingOpt st.spending a url now },
       [.postPaymentRequest payload.payment_request_url offer.offer_id
          payload.payment_context_token,
        .payEff inv, .recordSpend a url, .fetchReq url hdrs]) := by
  simp only [handleFewsatsV02, hsel, hjson, hinv, hres]
  rw [if_neg (by simp [hok]), if_neg hceil]
  simp only [hcheck, hpay]
  rfl


/-! ### Concrete fixtures for the orchestration witnesses -/

def payOkResult : PayResult :=
  { preimage := "preimg", paymentHash := "hash", status := "SUCCEEDED" }

/-- A provider whose authoritative decoder reports 100 sats and whose
payments succeed. -/
def provider100 : ProviderModel :=
  { payInvoice := fun _ => .ok payOkResult,
    getInvoiceAmountSats := some (fun _ => .ok 100) }

def classicChallenge : String :=
  "L402 macaroon=\"mac2\", invoice=\"inv2\""

/-- A well-formed Fewsats v0.2 402 body with a single lightning offer. -/
def fewsatsBody : Json :=
  .obj [("offers", .arr [.obj [("offer_id", .str "b"),
          ("amount", .num 100),
          ("payment_methods", .arr [.str "lightning"])]]),
        ("payment_context_token", .str "ctx"),
        ("payment_request_url", .str "https://pay.example/req"),
        ("version", .str "0.2")]

def fewsatsPayload : FewsatsPaymentRequired :=
  { offers := [{ offer_id := "b", amount := 100,
                 payment_methods := [.str "lightning"] }],
    payment_context_token := "ctx",
    payment_request_url := "https://pay.example/req",
    version := "0.2" }

def prGoodResp : Resp :=
  { status := 200, wwwAuth := none,
    bodyJson := some (.obj [("payment_request",
      .obj [("lightning_invoice", .str "lninv")])]),
    bodyText := "" }

/-- A classic-L402 resource: 402 with the structured challenge header
(and, deliberately, a valid Fewsats JSON body) until the request carries
the freshly paid credential. -/
def serverClassic : ServerModel :=
  { respond := fun _ hdrs =>
      if getHeader hdrs "Authorization" = some "L402 mac2:preimg" then
        { status := 200, wwwAuth := none, bodyJson := none,
          bodyText := "paid" }
      else
        { status := 402, wwwAuth := some classicChallenge,
          bodyJson := some fewsatsBody, bodyText := "" },
    prRespond := fun _ _ _ => prGoodResp }

def cfgClassic : ClientConfig :=
  { provider := provider100, maxPaymentSats := 1000,
    offerStrategy := selectCheapestLightningOffer, server := serverClassic }

/-- Same fixture with a 50-sat ceiling, below the 100-sat invoice. -/
def cfgTight : ClientConfig := { cfgClassic with maxPaymentSats := 50 }

def oldToken : CachedToken :=
  { macaroon := "oldmac", preimage := "oldpre", url := "u",
    createdAt := 0, expiresAt := none }

def stCached : ClientState :=
  { cache := TokenCache.empty.set "u" "oldmac" "oldpre" none 0,
    spending := none }

def stEmpty : ClientState := { cache := TokenCache.empty, spending := none }

/-- An offer-based resource: 402 with no challenge header and the Fewsats
body. -/
def serverFewsats : ServerModel :=
  { respond := fun _ _ =>
      { status := 402, wwwAuth := none, bodyJson := some fewsatsBody,
        bodyText := "" },
    prRespond := fun _ _ _ => prGoodResp }

def cfgFewsats : ClientConfig :=
  { provider := provider100, maxPaymentSats := 1000,
    offerStrategy := selectCheapestLightningOffer, server := serverFewsats }

/-- A 402 with neither a challenge header nor a JSON body. -/
def serverBadBody : ServerModel :=
  { respond := fun _ _ =>
      { status := 402, wwwAuth := none, bodyJson := none,
        bodyText := "oops" },
    prRespond := fun _ _ _ => prGoodResp }

def cfgBadBody : ClientConfig :=
  { provider := provider100, maxPaymentSats := 1000,
    offerStrategy := selectCheapestLightningOffer, server := serverBadBody }

/-- A 402 whose JSON body does not match the Fewsats shape. -/
def serverWrongJson : ServerModel :=
  { respond := fun _ _ =>
      { status := 402, wwwAuth := none,
        bodyJson := some (.obj [("hello", .num 1)]), bodyText := "" },
    prRespond := fun _ _ _ => prGoodResp }

def cfgWrongJson : ClientConfig :=
  { provider := provider100, maxPaymentSats := 1000,
    offerStrategy := selectCheapestLightningOffer,
    server := serverWrongJson }

/-- Claim C2 witness: with a 50-sat ceiling and a 100-sat invoice, both
handlers return the budget error with the ceiling message, leave the
state untouched, and emit no payment effect. -/
theorem ceiling_blocks_payment_witness :
    handleClassicL402 cfgTight "u" [] classicChallenge 0 stEmpty =
      (.error (.budget (ceilingMsg 100 50)), stEmpty, []) ∧
    handleFewsatsV02 cfgTight "u" [] fewsatsPayload 0 stEmpty =
      (.error (.budget (ceilingMsg 100 50)), stEmpty,
        [.postPaymentRequest "https://pay.example/req" "b" "ctx"]) := by
  constructor
  · exact ceiling_blocks_payment.1 cfgTight "u" [] classicChallenge 0
      stEmpty "mac2" "inv2" 100 rfl rfl (by decide)
  · exact ceiling_blocks_payment.2 cfgTight "u" [] fewsatsPayload 0
      stEmpty { offer_id := "b", amount := 100,
                payment_methods := [.str "lightning"] }
      (.obj [("payment_request",
        .obj [("lightning_invoice", .str "lninv")])])
      "lninv" 100 rfl (by decide) rfl rfl rfl (by decide)

/-- Claim C4 witness: the concrete 402s — header present with a valid
Fewsats JSON body still routes to the classic flow; header absent with
the Fewsats body routes to the offer-based flow; a non-JSON body and a
non-matching JSON body raise the two protocol errors. -/
theorem fetch402_classification_witness :
    fetchModel cfgClassic "u" [] 0 stEmpty =
      ((handleClassicL402 cfgClassic "u" [] classicChallenge 0
          stEmpty).1,
       (handleClassicL402 cfgClassic "u" [] classicChallenge 0
          stEmpty).2.1,
       .fetchReq "u" [] ::
         (handleClassicL402 cfgClassic "u" [] classicChallenge 0
           stEmpty).2.2) ∧
    fetchModel cfgFewsats "u" [] 0 stEmpty =
      ((handleFewsatsV02 cfgFewsats "u" [] fewsatsPayload 0 stEmpty).1,
       (handleFewsatsV02 cfgFewsats "u" [] fewsatsPayload 0 stEmpty).2.1,
       .fetchReq "u" [] ::
         (handleFewsatsV02 cfgFewsats "u" [] fewsatsPayload 0
           stEmpty).2.2) ∧
    fetchModel cfgBadBody "u" [] 0 stEmpty =
      (.error (.protocol
        "402 response has no WWW-Authenticate header and body is not valid JSON"),
       stEmpty, [.fetchReq "u" []]) ∧
    fetchModel cfgWrongJson "u" [] 0 stEmpty =
      (.error (.protocol
        "402 response has no WWW-Authenticate header and body does not match Fewsats v0.2 format"),
       stEmpty, [.fetchReq "u" []]) := by
  refine ⟨?_, ?_, ?_, ?_⟩
  · exact (fetch402_classification cfgClassic "u" [] 0 stEmpty rfl
      (by decide)).1 classicChallenge rfl
  · exact (fetch402_classification cfgFewsats "u" [] 0 stEmpty rfl
      (by decide)).2.1 fewsatsBody fewsatsPayload rfl rfl rfl
  · exact (fetch402_classification cfgBadBody "u" [] 0 stEmpty rfl
      (by decide)).2.2.1 rfl rfl
  · exact (fetch402_classification cfgWrongJson "u" [] 0 stEmpty rfl
      (by decide)).2.2.2 (.obj [("hello", .num 1)]) rfl rfl rfl

/-- Claim C3 witness: a cached credential rejected by a fresh 402 is
deleted from the cache before the single fallback payment, and the cache
state entering the payment flow no longer resolves the key. -/
theorem cached_credential_evicted_then_repaid_witness :
    (fetchModel cfgClassic "u" [] 0 stCached).2.2 =
      [.fetchReq "u" (setHeader [] "Authorization" "L402 oldmac:oldpre"),
       .cacheDelete "u", .fetchReq "u" [], .payEff "inv2",
       .recordSpend 100 "u", .cacheSet "u" "mac2" "preimg",
       .fetchReq "u" (setHeader [] "Authorization" "L402 mac2:preimg")] ∧
    ((fetchModel cfgClassic "u" [] 0 stCached).2.2.filter
        (fun e => match e with | .payEff _ => true | _ => false)).length
      = 1 ∧
    ((((stCached.cache.get "u" 0).2.delete "u").2).get "u" 0).1 = none := by
  have h := cached_credential_evicted_then_repaid cfgClassic "u" [] 0
    stCached oldToken classicChallenge "mac2" "inv2" 100 payOkResult
    rfl (by decide) (by decide) rfl rfl rfl (by decide) rfl rfl
  exact h

/-- Claim C8 witness: a successful offer-based payment records the spend
(no tracker configured here, so the state is unchanged), writes nothing
to the cache, and reissues the request with the caller's bearer header
verbatim. -/
theorem fewsats_success_reissues_unchanged_witness :
    handleFewsatsV02 cfgFewsats "u" [("Authorization", "Bearer tok")]
      fewsatsPayload 0 stEmpty =
      (.ok (serverFewsats.respond "u" [("Authorization", "Bearer tok")]),
       { cache := TokenCache.empty, spending := none },
       [.postPaymentRequest "https://pay.example/req" "b" "ctx",
        .payEff "lninv", .recordSpend 100 "u",
        .fetchReq "u" [("Authorization", "Bearer tok")]]) := by
  exact fewsats_success_reissues_unchanged cfgFewsats "u"
    [("Authorization", "Bearer tok")] fewsatsPayload 0 stEmpty
    { offer_id := "b", amount := 100,
      payment_methods := [.str "lightning"] }
    (.obj [("payment_request", .obj [("lightning_invoice", .str "lninv")])])
    "lninv" 100 payOkResult rfl (by decide) rfl rfl rfl (by decide) rfl rfl


/-! ## Concurrent calls and the in-flight payment map (claim C1)

JS executes each `async` function atomically between `await` points.  The
model below captures N concurrent `fetch` calls to one never-before-paid
classic resource (server: 402 without a credential, 200 with one;
provider: payment always succeeds, no decode capability so amount
resolution is synchronous).  Each call is a program counter over the await
points of `fetch`/`handleClassicL402`; shared state is the cache entry for
the resource, the `inflightPayments` map entry (`Map.set` overwrites,
`Map.delete` in the `finally` removes whichever entry is present), the
per-call resolved flags of the in-flight promises, and the number of
`payInvoice` invocations.  A schedule is the list of call ids picked to
run their next atomic segment; stepping a blocked or finished call is a
no-op. -/

inductive CallPc where
  | start : CallPc
  | cachedRetryW : CallPc
  | waitingOn (j : Nat) : CallPc
  | firstFetchW : CallPc
  | cancelW : CallPc
  | payingW : CallPc
  | retryW : CallPc
  | doneOk : CallPc
deriving Repr, DecidableEq

structure ConcState where
  pcs : List CallPc
  cache : Bool
  inflight : Option Nat
  resolved : List Bool
  payCount : Nat
deriving Repr, DecidableEq

def setPc (s : ConcState) (i : Nat) (pc : CallPc) : ConcState :=
  { s with pcs := s.pcs.set i pc }

/-- One atomic segment of call `i`.

* `start`: the synchronous prologue of `fetch` — cache lookup, then the
  in-flight check, then initiation of the uncredentialed request.
* `cachedRetryW` / `retryW`: a credentialed request resolves with 200.
* `waitingOn j`: blocked on call `j`'s promise; once resolved, re-check
  the cache, using the credential when present, else fall through to the
  plain request.
* `firstFetchW`: the 402 arrives; `response.body.cancel()` is initiated.
* `cancelW`: the synchronous middle of `handleClassicL402` — parse,
  decode, ceiling and tracker checks, registration of this call's
  in-flight marker (overwriting any existing entry) and initiation of
  `payInvoice`.
* `payingW`: the payment resolves — record the spend, cache the
  credential, initiate the retry, then the `finally` deletes the map
  entry and resolves this call's promise. -/
def stepCall (s : ConcState) (i : Nat) : ConcState :=
  match s.pcs.get? i with
  | none => s
  | some pc =>
    match pc with
    | .start =>
      if s.cache then setPc s i .cachedRetryW
      else
        match s.inflight with
        | some j => setPc s i (.waitingOn j)
        | none => setPc s i .firstFetchW
    | .cachedRetryW => setPc s i .doneOk
    | .waitingOn j =>
      if s.resolved.get? j = some true then
        if s.cache then setPc s i .cachedRetryW else setPc s i .firstFetchW
      else s
    | .firstFetchW => setPc s i .cancelW
    | .cancelW =>
      let s2 := setPc s i .payingW
      { s2 with inflight := some i, payCount := s.payCount + 1 }
    | .payingW =>
      let s2 := setPc s i .retryW
      let r2 := s.resolved.set i true
      { s2 with cache := true, inflight := none, resolved := r2 }
    | .retryW => setPc s i .doneOk
    | .doneOk => s

def initConc (n : Nat) : ConcState :=
  { pcs := List.replicate n .start, cache := false, inflight := none,
    resolved := List.replicate n false, payCount := 0 }

/-- Run a schedule from `n` concurrent calls in their initial state. -/
def runSched (n : Nat) (sched : List Nat) : ConcState :=
  sched.foldl stepCall (initConc n)

/-- The number of calls currently awaiting `payInvoice` (payments
outstanding at this instant). -/
def outstandingPays (s : ConcState) : Nat :=
  s.pcs.countP (fun pc => pc = .payingW)

/-- Claim C1 counterexample: two concurrent calls to the same
never-before-paid resource, interleaved strictly (both pass the in-flight
check before either registers a marker), invoke `payInvoice` twice — not
exactly once — and both payments are outstanding at the same instant;
both calls nevertheless finish with a success response. -/
theorem concurrent_duplicate_payment :
    outstandingPays (runSched 2 [0, 1, 0, 1, 0, 1]) = 2 ∧
    (runSched 2 [0, 1, 0, 1, 0, 1, 0, 1, 0, 1]).payCount = 2 ∧
    ¬ (runSched 2 [0, 1, 0, 1, 0, 1, 0, 1, 0, 1]).payCount = 1 ∧
    (runSched 2 [0, 1, 0, 1, 0, 1, 0, 1, 0, 1]).pcs =
      [.doneOk, .doneOk] := by
  refine ⟨by decide, by decide, by decide, by decide⟩

/-- Claim C1 amended: the in-flight map dedups only callers that reach
their in-flight check after a payment has registered its marker — such a
caller waits, re-checks the cache and reuses the credential, for one
`payInvoice` in total — while callers that all pass the check before any
marker exists each invoke `payInvoice` (up to one per call), every call
still finishing successfully; and the offer-based flow never registers a
marker or caches, so each offer-based call pays independently. -/
theorem inflight_dedup_after_marker :
    ((runSched 2 [0, 0, 0, 1, 0, 1, 1, 0]).payCount = 1 ∧
      (runSched 2 [0, 0, 0, 1, 0, 1, 1, 0]).pcs = [.doneOk, .doneOk]) ∧
    ((runSched 2 [0, 1, 0, 1, 0, 1, 0, 1, 0, 1]).payCount = 2 ∧
      (runSched 2 [0, 1, 0, 1, 0, 1, 0, 1, 0, 1]).pcs =
        [.doneOk, .doneOk]) ∧
    (((fetchModel cfgFewsats "u" [] 0 stEmpty).2.2.filter
        (fun e => match e with | .payEff _ => true | _ => false)).length
      = 1 ∧
     ((fetchModel cfgFewsats "u" [] 0
          (fetchModel cfgFewsats "u" [] 0 stEmpty).2.1).2.2.filter
        (fun e => match e with | .payEff _ => true | _ => false)).length
      = 1) := by
  refine ⟨⟨by decide, by decide⟩, ⟨by decide, by decide⟩, ?_, ?_⟩
  · rfl
  · rfl

